import Mathlib

/-!
Verification of the resilience layer of the Energy-Trading-Simulator backend:
a shallow embedding of `simple_cache.py`, `keypool_manager.py`,
`request_queue.py` and the pool-reset operation of `services.py`, together
with theorems settling the behavioural claims about those modules.

Modelling conventions: wall-clock instants and durations are integers
(seconds); the cooldown constant `cooldown_minutes = 1.5` becomes 90
seconds.  Cached values are natural numbers.  Python exceptions become
`Except String`.  Thread locks guard critical sections that the embedding
executes atomically, so they are not represented.  Blocking sleeps are
represented by explicitly advancing the clock and reporting the new time.
-/

/-- One entry of the `SimpleCache.cache` dict: `cache[key] = (data, timestamp)`. -/
structure CacheEntry where
  key : String
  data : Nat
  timestamp : Int
deriving DecidableEq

/-- State of `SimpleCache` (`simple_cache.py`): the `cache` dict as an
association list with unique keys, and `default_ttl` in seconds. -/
structure SimpleCache where
  cache : List CacheEntry
  default_ttl : Int
deriving DecidableEq

/-- `SimpleCache.get` (`simple_cache.py` lines 19-29): returns
`(data, is_fresh)` together with the possibly mutated cache.  A fresh hit
returns the data; an entry found expired is deleted (`del self.cache[key]`)
and the call returns `(None, False)`. -/
def SimpleCache.get (c : SimpleCache) (key : String) (now : Int) :
    Option Nat × Bool × SimpleCache :=
  match c.cache.find? (fun e => e.key == key) with
  | some e =>
    if now - e.timestamp < c.default_ttl then
      (some e.data, true, c)
    else
      (none, false, { c with cache := c.cache.filter (fun x => x.key != key) })
  | none => (none, false, c)

/-- `SimpleCache.set` (lines 31-34): store `(data, now)` under `key`,
overwriting any previous binding. -/
def SimpleCache.set (c : SimpleCache) (key : String) (data : Nat) (now : Int) :
    SimpleCache :=
  { c with cache := c.cache.filter (fun x => x.key != key) ++ [⟨key, data, now⟩] }

/-- `SimpleCache.clear` (lines 43-47): discard every entry (and every
per-key lock, which the embedding does not represent). -/
def SimpleCache.clear (c : SimpleCache) : SimpleCache :=
  { c with cache := [] }

/-- Result record of `SimpleCache.get_stats` (lines 49-67). -/
structure CacheStats where
  total_entries : Nat
  fresh_entries : Nat
  expired_entries : Nat
  ttl_minutes : Int
deriving DecidableEq

/-- `SimpleCache.get_stats` (lines 49-67). -/
def SimpleCache.get_stats (c : SimpleCache) (now : Int) : CacheStats :=
  { total_entries := c.cache.length
    fresh_entries := (c.cache.filter (fun e => now - e.timestamp < c.default_ttl)).length
    expired_entries := (c.cache.filter (fun e => ¬ (now - e.timestamp < c.default_ttl))).length
    ttl_minutes := c.default_ttl / 60 }

/-- The body of the `cached_api_call` decorator (`simple_cache.py` lines
72-108) for one caller: try `get`; on a fresh hit return it; otherwise take
the per-key lock (atomic here), re-check, and if still not fresh run the
compute function, storing its result on success.  On failure the code
falls back to `cached_data` only when it is not `None`.  The outcome of the
single invocation of the wrapped function is the `compute` argument. -/
def cached_api_call (c : SimpleCache) (key : String) (now : Int)
    (compute : Except String Nat) : Except String (Option Nat) × SimpleCache :=
  let r1 := c.get key now
  if r1.2.1 then (Except.ok r1.1, r1.2.2)
  else
    let r2 := r1.2.2.get key now
    if r2.2.1 then (Except.ok r2.1, r2.2.2)
    else
      match compute with
      | Except.ok v => (Except.ok (some v), r2.2.2.set key v now)
      | Except.error e =>
        if r2.1.isSome then (Except.ok r2.1, r2.2.2)
        else (Except.error e, r2.2.2)

/-- Per-key record `ApiKeyStats` (`keypool_manager.py` lines 11-18). -/
structure ApiKeyStats where
  key : String
  last_used : Int
  request_count : Nat
  rate_limited_until : Option Int
  consecutive_failures : Nat
  is_active : Bool
deriving DecidableEq

/-- State of `ApiKeyPool` (lines 20-33).  The `cooldown_minutes = 1.5`
constant is the separate definition `cooldown_seconds`. -/
structure ApiKeyPool where
  keys_stats : List ApiKeyStats
  strategy : String
  current_index : Nat
deriving DecidableEq

/-- `self.cooldown_minutes = 1.5`, expressed in seconds. -/
def cooldown_seconds : Int := 90

/-- The per-key side effect of the availability pass (lines 76-79): an
active key whose rate limit has elapsed gets `rate_limited_until` cleared
and its failure counter reset; inactive keys are skipped (`continue`). -/
def refreshKey (now : Int) (k : ApiKeyStats) : ApiKeyStats :=
  if !k.is_active then k
  else
    match k.rate_limited_until with
    | some d =>
      if now ≥ d then { k with rate_limited_until := none, consecutive_failures := 0 }
      else k
    | none => k

/-- The availability test applied after the refresh pass (lines 72-83):
a key is collected iff it is active and not rate limited. -/
def isAvailable (k : ApiKeyStats) : Bool :=
  k.is_active && k.rate_limited_until.isNone

/-- `ApiKeyPool._get_available_keys` (lines 67-85): returns the mutated
pool (expired limits cleared) together with the list of available keys. -/
def getAvailableKeys (now : Int) (p : ApiKeyPool) : ApiKeyPool × List ApiKeyStats :=
  let updated := p.keys_stats.map (refreshKey now)
  ({ p with keys_stats := updated }, updated.filter isAvailable)

/-- The selection side effect (lines 98-99 etc.): stamp `last_used`,
increment `request_count`. -/
def markUsed (now : Int) (k : ApiKeyStats) : ApiKeyStats :=
  { k with last_used := now, request_count := k.request_count + 1 }

/-- The `for _ in range(len(self.keys_stats))` loop of
`_round_robin_selection` (lines 93-100), with the range length as fuel:
probe `keys_stats[current_index % len]`, incrementing the cursor each
probe, and select the first probed key that is in `available_keys`. -/
def roundRobinLoop (now : Int) (keys : List ApiKeyStats) (avail : List ApiKeyStats) :
    Nat → Nat → Option (String × List ApiKeyStats × Nat)
  | _, 0 => none
  | idx, fuel + 1 =>
    match keys.get? (idx % keys.length) with
    | none => none
    | some ck =>
      if ck ∈ avail then
        some (ck.key, keys.set (idx % keys.length) (markUsed now ck), idx + 1)
      else
        roundRobinLoop now keys avail (idx + 1) fuel

/-- Mutate the selected key record in place (the Python code mutates the
object aliased inside `keys_stats`): update the first occurrence. -/
def selectAt (now : Int) (keys : List ApiKeyStats) (ks : ApiKeyStats) :
    String × List ApiKeyStats :=
  match keys.findIdx? (fun x => decide (x = ks)) with
  | some j => (ks.key, keys.set j (markUsed now ks))
  | none => (ks.key, keys)

/-- `ApiKeyPool._round_robin_selection` (lines 87-106): the probe loop,
then the `available_keys[0]` fallback. -/
def roundRobinSelection (now : Int) (keys : List ApiKeyStats)
    (avail : List ApiKeyStats) (idx : Nat) : Option String × List ApiKeyStats × Nat :=
  if avail.isEmpty then (none, keys, idx)
  else
    match roundRobinLoop now keys avail idx keys.length with
    | some (s, keys2, idx2) => (some s, keys2, idx2)
    | none =>
      match avail.head? with
      | some ks =>
        let r := selectAt now keys ks
        (some r.1, r.2, idx + keys.length)
      | none => (none, keys, idx + keys.length)

/-- `ApiKeyPool._random_selection` (lines 108-113); `random.choice` is
modelled by an oracle index `pick` reduced modulo the list length. -/
def randomSelection (now : Int) (keys : List ApiKeyStats)
    (avail : List ApiKeyStats) (pick : Nat) : Option String × List ApiKeyStats :=
  match avail.get? (pick % avail.length) with
  | some ks =>
    let r := selectAt now keys ks
    (some r.1, r.2)
  | none => (none, keys)

/-- Python `min(iterable, key=...)`: first element attaining the minimum. -/
def leastUsedMin : List ApiKeyStats → Option ApiKeyStats
  | [] => none
  | k :: rest =>
    match leastUsedMin rest with
    | some m => some (if k.request_count ≤ m.request_count then k else m)
    | none => some k

/-- `ApiKeyPool._least_used_selection` (lines 115-120). -/
def leastUsedSelection (now : Int) (keys : List ApiKeyStats)
    (avail : List ApiKeyStats) : Option String × List ApiKeyStats :=
  match leastUsedMin avail with
  | some ks =>
    let r := selectAt now keys ks
    (some r.1, r.2)
  | none => (none, keys)

/-- Minimum `rate_limited_until` among a list of key records
(the value `min(..., key=lambda k: k.rate_limited_until)` is taken at). -/
def minUntil : List ApiKeyStats → Option Int
  | [] => none
  | k :: rest =>
    match k.rate_limited_until, minUntil rest with
    | some d, some m => some (min d m)
    | some d, none => some d
    | none, m => m

/-- `ApiKeyPool._wait_for_cooldown` (lines 150-160): over ALL key records
(active or not), find those with a pending `rate_limited_until > now`,
take the shortest remaining wait, and sleep it only when it is positive
and strictly below `cooldown_seconds`.  Returns the seconds slept. -/
def waitForCooldown (now : Int) (keys : List ApiKeyStats) : Int :=
  let limited := keys.filter (fun k =>
    k.rate_limited_until.isSome && decide (k.rate_limited_until.getD 0 > now))
  match minUntil limited with
  | some d =>
    let wait := d - now
    if 0 < wait && wait < cooldown_seconds then wait else 0
  | none => 0

/-- The strategy dispatch of `ApiKeyPool.get_next_key` (lines 58-65):
unknown strategy strings fall back to round-robin. -/
def dispatchStrategy (p2 : ApiKeyPool) (avail : List ApiKeyStats) (t2 : Int)
    (pick : Nat) : Except String (Option String) × ApiKeyPool × Int :=
  if p2.strategy == "round_robin" then
    let r := roundRobinSelection t2 p2.keys_stats avail p2.current_index
    (Except.ok r.1, ⟨r.2.1, p2.strategy, r.2.2⟩, t2)
  else if p2.strategy == "random" then
    let r := randomSelection t2 p2.keys_stats avail pick
    (Except.ok r.1, ⟨r.2, p2.strategy, p2.current_index⟩, t2)
  else if p2.strategy == "least_used" then
    let r := leastUsedSelection t2 p2.keys_stats avail
    (Except.ok r.1, ⟨r.2, p2.strategy, p2.current_index⟩, t2)
  else
    let r := roundRobinSelection t2 p2.keys_stats avail p2.current_index
    (Except.ok r.1, ⟨r.2.1, p2.strategy, r.2.2⟩, t2)

/-- `ApiKeyPool.get_next_key` (lines 35-65): filter; if nothing is
available, run the cooldown wait and filter again; if still nothing,
raise `"All API keys are exhausted or inactive"`; otherwise dispatch on
the strategy string.  Returns the selected key (`none` models
`_round_robin_selection` returning `None`), the mutated pool, and the
clock after any sleep. -/
def getNextKey (p : ApiKeyPool) (now : Int) (pick : Nat) :
    Except String (Option String) × ApiKeyPool × Int :=
  let r1 := getAvailableKeys now p
  let b :=
    if r1.2.isEmpty then
      let w := waitForCooldown now r1.1.keys_stats
      let r2 := getAvailableKeys (now + w) r1.1
      (r2.1, r2.2, now + w)
    else (r1.1, r1.2, now)
  let p2 := b.1
  let avail := b.2.1
  let t2 := b.2.2
  if avail.isEmpty then
    (Except.error "All API keys are exhausted or inactive", p2, t2)
  else
    dispatchStrategy p2 avail t2 pick

/-- The shared shape of `mark_rate_limited` / `mark_success` /
`deactivate_key` (lines 122-148): scan `keys_stats`, mutate the FIRST
record whose `key` matches, then `break`; no match leaves everything
untouched. -/
def markFirst (f : ApiKeyStats → ApiKeyStats) (api_key : String) :
    List ApiKeyStats → List ApiKeyStats
  | [] => []
  | k :: rest =>
    if k.key == api_key then f k :: rest
    else k :: markFirst f api_key rest

/-- `cooldown_minutes = retry_after or self.cooldown_minutes` (line 127),
converted to seconds: a `None` or `0` hint falls back to the 1.5-minute
constant (Python `or` treats `0` as absent). -/
def cooldownFromHint (retry_after : Option Nat) : Int :=
  match retry_after with
  | some m => if m = 0 then cooldown_seconds else (m : Int) * 60
  | none => cooldown_seconds

/-- `ApiKeyPool.mark_rate_limited` (lines 122-131): set
`rate_limited_until = now + cooldown` and bump the failure counter on the
first matching key. -/
def markRateLimited (p : ApiKeyPool) (api_key : String)
    (retry_after : Option Nat) (now : Int) : ApiKeyPool :=
  { p with keys_stats := markFirst (fun k =>
      { k with rate_limited_until := some (now + cooldownFromHint retry_after),
               consecutive_failures := k.consecutive_failures + 1 }) api_key p.keys_stats }

/-- `ApiKeyPool.mark_success` (lines 133-139): reset the failure counter
on the first matching key. -/
def markSuccess (p : ApiKeyPool) (api_key : String) : ApiKeyPool :=
  { p with keys_stats := markFirst (fun k =>
      { k with consecutive_failures := 0 }) api_key p.keys_stats }

/-- `ApiKeyPool.deactivate_key` (lines 141-148): clear `is_active` on the
first matching key. -/
def deactivateKey (p : ApiKeyPool) (api_key : String) : ApiKeyPool :=
  { p with keys_stats := markFirst (fun k =>
      { k with is_active := false }) api_key p.keys_stats }

/-- One element of the `keys` list built by `ApiKeyPool.get_stats`
(lines 175-186); the optional `rate_limited_until` field is `none` when
the Python dict omits it. -/
structure PoolKeyInfo where
  key_preview : String
  requests : Nat
  last_used : Int
  is_active : Bool
  rate_limited : Bool
  failures : Nat
  rate_limited_until : Option Int
deriving DecidableEq

/-- The dict returned by `ApiKeyPool.get_stats` (lines 162-188). -/
structure PoolStats where
  total_keys : Nat
  active_keys : Nat
  available_keys : Nat
  rate_limited_keys : Nat
  strategy : String
  keys : List PoolKeyInfo
deriving DecidableEq

/-- `ApiKeyPool.get_stats` (lines 162-188).  `total_keys` and
`active_keys` are computed before the embedded `_get_available_keys`
call mutates the records; `rate_limited_keys` and the per-key list are
computed after it.  The mutated pool is returned alongside the report. -/
def getStats (p : ApiKeyPool) (now : Int) : PoolStats × ApiKeyPool :=
  let total := p.keys_stats.length
  let active := (p.keys_stats.filter (fun k => k.is_active)).length
  let r := getAvailableKeys now p
  let p1 := r.1
  let rl := (p1.keys_stats.filter (fun k =>
    k.rate_limited_until.isSome && decide (k.rate_limited_until.getD 0 > now))).length
  let infos := p1.keys_stats.map (fun k =>
    { key_preview := k.key.take 8 ++ "..."
      requests := k.request_count
      last_used := k.last_used
      is_active := k.is_active
      rate_limited := k.rate_limited_until.isSome
      failures := k.consecutive_failures
      rate_limited_until := k.rate_limited_until : PoolKeyInfo })
  ({ total_keys := total, active_keys := active, available_keys := r.2.length,
     rate_limited_keys := rl, strategy := p1.strategy, keys := infos }, p1)

/-- Outcome of one invocation of the function wrapped by
`api_request_with_rotation`: a value, an HTTP error with a status code
and an optional `Retry-After` header (in seconds), or any other
exception. -/
inductive FetchResult where
  | success (v : Nat)
  | httpError (status : Nat) (retryAfterHeader : Option Nat)
  | otherError (msg : String)
deriving DecidableEq

/-- Mutable state threaded through the retry loop of
`api_request_with_rotation`: the pool, the clock (advanced by cooldown
waits and backoff sleeps), and how many credentials were successfully
selected so far. -/
structure RotState where
  pool : ApiKeyPool
  now : Int
  selections : Nat
deriving DecidableEq

/-- The `for attempt in range(max_retries)` loop of
`api_request_with_rotation` (`keypool_manager.py` lines 196-238),
recursing on the remaining attempts.  `behavior attempt key` is the
outcome of the wrapped call on that attempt; `picks` is the oracle for
the random strategy.  A pool-exhausted raise from `get_next_key`, the
`not api_key` raise, and any generic failure are all caught by the
blanket `except Exception` handler, record the exception, run the
exponential backoff sleep (skipped on the final attempt), and continue;
HTTP 429 marks the key rate limited (hint `Retry-After // 60` minutes)
and continues without backoff; HTTP 403 deactivates the key and
continues without backoff; any other HTTP error breaks out of the loop
and the recorded exception is raised. -/
def rotationGo (behavior : Nat → String → FetchResult) (picks : Nat → Nat)
    (max_retries : Nat) :
    Nat → Nat → RotState → Option String → Except String Nat × RotState
  | 0, _, st, lastE => (Except.error (lastE.getD "All retry attempts failed"), st)
  | remaining + 1, attempt, st, lastE =>
    let sel := getNextKey st.pool st.now (picks attempt)
    let backoff : Int := if attempt < max_retries - 1 then 2 ^ attempt else 0
    match sel.1 with
    | Except.error e =>
      rotationGo behavior picks max_retries remaining (attempt + 1)
        { pool := sel.2.1, now := sel.2.2 + backoff, selections := st.selections } (some e)
    | Except.ok k? =>
      match k? with
      | none =>
        rotationGo behavior picks max_retries remaining (attempt + 1)
          { pool := sel.2.1, now := sel.2.2 + backoff, selections := st.selections }
          (some "No API keys available")
      | some k =>
        if k == "" then
          rotationGo behavior picks max_retries remaining (attempt + 1)
            { pool := sel.2.1, now := sel.2.2 + backoff, selections := st.selections }
            (some "No API keys available")
        else
          let st1 : RotState :=
            { pool := sel.2.1, now := sel.2.2, selections := st.selections + 1 }
          match behavior attempt k with
          | FetchResult.success v =>
            (Except.ok v, { st1 with pool := markSuccess st1.pool k })
          | FetchResult.httpError status ra =>
            if status = 429 then
              rotationGo behavior picks max_retries remaining (attempt + 1)
                { st1 with pool := markRateLimited st1.pool k (ra.map (fun s => s / 60)) st1.now }
                (some ("HTTP " ++ toString status))
            else if status = 403 then
              rotationGo behavior picks max_retries remaining (attempt + 1)
                { st1 with pool := deactivateKey st1.pool k }
                (some ("HTTP " ++ toString status))
            else
              (Except.error ("HTTP " ++ toString status), st1)
          | FetchResult.otherError msg =>
            rotationGo behavior picks max_retries remaining (attempt + 1)
              { st1 with now := st1.now + backoff } (some msg)

/-- `api_request_with_rotation(pool, max_retries)` applied to one call of
the wrapped function (lines 192-241). -/
def apiRequestWithRotation (behavior : Nat → String → FetchResult)
    (picks : Nat → Nat) (p : ApiKeyPool) (now : Int) (max_retries : Nat) :
    Except String Nat × RotState :=
  rotationGo behavior picks max_retries max_retries 0 ⟨p, now, 0⟩ none

/-- `initialize_api_pool` / `ApiKeyPool.__init__` (lines 21-33 and
245-258) applied to an already parsed key list: fresh per-key records
(`last_used = datetime.now()`, zero counters, active, no rate limit) and
cursor 0.  `reset_api_pool` (`services.py` lines 177-180) rebuilds the
pool this way from the configured keys. -/
def initApiPool (api_keys : List String) (strategy : String) (now : Int) : ApiKeyPool :=
  { keys_stats := api_keys.map (fun k => ⟨k, now, 0, none, 0, true⟩),
    strategy := strategy,
    current_index := 0 }

/-- The `stats` dict of `RateLimitedQueue` (`request_queue.py` lines
23-29). -/
structure QueueStats where
  total_requests : Nat
  successful_requests : Nat
  failed_requests : Nat
  queue_size : Nat
  last_processed : Option String
deriving DecidableEq

/-- State of `RateLimitedQueue` (lines 17-30): the backlog is abstracted
to its size (its elements play no role in the claims under proof). -/
structure RateLimitedQueue where
  backlog : Nat
  interval : Int
  running : Bool
  stats : QueueStats
deriving DecidableEq

/-- `RateLimitedQueue.__init__(interval_seconds)` (lines 18-30). -/
def RateLimitedQueue.init (interval : Int) : RateLimitedQueue :=
  { backlog := 0, interval := interval, running := false,
    stats := { total_requests := 0, successful_requests := 0, failed_requests := 0,
               queue_size := 0, last_processed := none } }

/-- `RateLimitedQueue.stop` (lines 40-44): flip `running` off (the worker
join does not touch the backlog or the stats). -/
def RateLimitedQueue.stop (q : RateLimitedQueue) : RateLimitedQueue :=
  { q with running := false }

/-- `RateLimitedQueue.start` (lines 32-38): start the worker if not
already running. -/
def RateLimitedQueue.start (q : RateLimitedQueue) : RateLimitedQueue :=
  if q.running then q else { q with running := true }

/-- `clear_queue` (lines 145-149): `stop()` then `start()`. -/
def clear_queue (q : RateLimitedQueue) : RateLimitedQueue :=
  q.stop.start

/-- `RateLimitedQueue.enqueue_request`, state part (lines 92-107): grow
the backlog and refresh the recorded queue size. -/
def RateLimitedQueue.enqueue (q : RateLimitedQueue) : RateLimitedQueue :=
  { q with backlog := q.backlog + 1,
           stats := { q.stats with queue_size := q.backlog + 1 } }

/-- One service iteration of `RateLimitedQueue._process_queue`
(lines 46-90), state part: dequeue, execute (outcome `ok`), bump the
counters and record the completion timestamp `ts`.  With an empty
backlog the iteration only polls and changes nothing. -/
def RateLimitedQueue.process_one (q : RateLimitedQueue) (ok : Bool) (ts : String) :
    RateLimitedQueue :=
  if q.backlog = 0 then q
  else
    { q with backlog := q.backlog - 1,
             stats := { total_requests := q.stats.total_requests + 1,
                        successful_requests :=
                          q.stats.successful_requests + (if ok then 1 else 0),
                        failed_requests :=
                          q.stats.failed_requests + (if ok then 0 else 1),
                        queue_size := q.backlog - 1,
                        last_processed := some ts } }

/-- `RateLimitedQueue.get_stats` (lines 117-124): the stats dict with
`queue_size` refreshed, plus `is_running`. -/
def RateLimitedQueue.get_stats (q : RateLimitedQueue) : QueueStats × Bool :=
  ({ q.stats with queue_size := q.backlog }, q.running)

/-- The sleep at the end of a worker iteration (lines 83-86):
`max(0, interval - elapsed)`. -/
def worker_sleep (interval elapsed : ℚ) : ℚ := max 0 (interval - elapsed)

/-- Start instants of the successive request executions of the single
worker thread of `_process_queue`: execution `n+1` starts after execution
`n` ran for `dur n`, the worker slept `worker_sleep interval (dur n)`,
and possibly idled `idle (n+1) ≥ 0` in the empty-queue polling branch;
`idle 0` is the delay before the first execution. -/
def execStart (interval : ℚ) (dur idle : Nat → ℚ) : Nat → ℚ
  | 0 => idle 0
  | n + 1 =>
    execStart interval dur idle n + dur n + worker_sleep interval (dur n) + idle (n + 1)

theorem find_key_filter_self (key : String) (l : List CacheEntry) :
    (l.filter (fun x => x.key != key)).find? (fun e => e.key == key) = none := by
  induction l with
  | nil => rfl
  | cons a t ih =>
    by_cases h : a.key = key
    · simpa [List.filter_cons, h] using ih
    · simpa [List.filter_cons, List.find?_cons, h] using ih

/-- C1: For every cache fingerprint and compute function, when the
stampede-guarded entry point finds the entry stale and the compute
function raises, the claim says a previously stored value is returned as
a stale fallback.  The code cannot do this: `SimpleCache.get` deletes an
expired entry and returns `None`, so the fallback branch of
`cached_api_call` (guarded by `cached_data is not None`, and documented
by the comment "If API fails and we have expired data, use it as
fallback") never fires.  At the failing input - a value stored at t=0
with a 5-minute TTL, read at t=360s with a failing compute - the wrapper
propagates the error and the stale value is gone. -/
theorem C1_stale_fallback_dead :
    cached_api_call ⟨[⟨"k", 7, 0⟩], 300⟩ "k" 360 (Except.error "boom")
      = (Except.error "boom", ⟨[], 300⟩) := rfl

/-- C6 counterexample: the claim says a read that reports the entry as
not fresh leaves the previously stored value in the cache.  With a value
stored at t=0 and TTL 300s, the read at t=360s reports not fresh AND
removes the entry. -/
theorem C6_counterexample :
    (SimpleCache.get ⟨[⟨"k", 7, 0⟩], 300⟩ "k" 360).2.1 = false ∧
    ((SimpleCache.get ⟨[⟨"k", 7, 0⟩], 300⟩ "k" 360).2.2).cache = [] := by decide

theorem find_append {α : Type} (p : α → Bool) (l1 l2 : List α) :
    (l1 ++ l2).find? p = match l1.find? p with
      | some x => some x
      | none => l2.find? p := by
  induction l1 with
  | nil => rfl
  | cons a t ih =>
    by_cases h : p a = true
    · simp [List.find?_cons, h]
    · simp only [Bool.not_eq_true] at h
      simp [List.find?_cons, h, ih]

theorem find_key_filter_other (key k2 : String) (hk2 : k2 ≠ key)
    (l : List CacheEntry) :
    (l.filter (fun x => x.key != key)).find? (fun e => e.key == k2) =
      l.find? (fun e => e.key == k2) := by
  induction l with
  | nil => rfl
  | cons a t ih =>
    by_cases h : a.key = key
    · have hne : (key == k2) = false := beq_eq_false_iff_ne.mpr (Ne.symm hk2)
      simp [List.filter_cons, List.find?_cons, h, hne, ih]
    · by_cases h2 : a.key = k2
      · simp [List.filter_cons, List.find?_cons, h, h2, hk2]
      · simp [List.filter_cons, List.find?_cons, h, h2, hk2, ih]

/-- C6 amended: expiry is evaluated lazily at read time, and a stored
entry is removed only by the explicit clear operation or by a read of
that same fingerprint that finds it expired: a read that reports the
entry as not fresh deletes it, so no value for that fingerprint remains;
a fresh read leaves the cache unchanged; any read leaves every other
fingerprint's entry untouched; an overwrite by set replaces the entry
for its own fingerprint (the fingerprint stays present with the new
value) and preserves every other fingerprint's entry; clear discards
everything. -/
theorem C6_lazy_expiry_frame (c : SimpleCache) (key k2 : String) (now : Int)
    (v : Nat) (hk2 : k2 ≠ key) :
    ((c.get key now).2.1 = false →
      ((c.get key now).2.2).cache.find? (fun e => e.key == key) = none) ∧
    ((c.get key now).2.1 = true → (c.get key now).2.2 = c) ∧
    ((c.get key now).2.2).cache.find? (fun e => e.key == k2) =
      c.cache.find? (fun e => e.key == k2) ∧
    (c.set key v now).cache.find? (fun e => e.key == k2) =
      c.cache.find? (fun e => e.key == k2) ∧
    (c.set key v now).cache.find? (fun e => e.key == key) =
      some ⟨key, v, now⟩ ∧
    c.clear.cache = [] := by
  refine ⟨?_, ?_, ?_, ?_, ?_, rfl⟩
  · intro h
    unfold SimpleCache.get at h ⊢
    split
    next e heq =>
      split
      next ht => simp [heq, ht] at h
      next ht => simpa using find_key_filter_self key c.cache
    next heq => simpa using heq
  · intro h
    unfold SimpleCache.get at h ⊢
    split
    next e heq =>
      split
      next ht => rfl
      next ht => simp [heq, ht] at h
    next heq => simp [heq] at h
  · unfold SimpleCache.get
    split
    next e heq =>
      split
      next ht => rfl
      next ht => simpa using find_key_filter_other key k2 hk2 c.cache
    next heq => rfl
  · show ((c.cache.filter (fun x => x.key != key)) ++
        [(⟨key, v, now⟩ : CacheEntry)]).find?
        (fun e => e.key == k2) = c.cache.find? (fun e => e.key == k2)
    rw [find_append, find_key_filter_other key k2 hk2 c.cache]
    have hne : (key == k2) = false := beq_eq_false_iff_ne.mpr (Ne.symm hk2)
    cases hf : c.cache.find? (fun e => e.key == k2) with
    | some x => rfl
    | none => simp [List.find?_cons, hne]
  · show ((c.cache.filter (fun x => x.key != key)) ++
        [(⟨key, v, now⟩ : CacheEntry)]).find?
        (fun e => e.key == key) = some (⟨key, v, now⟩ : CacheEntry)
    rw [find_append, find_key_filter_self key c.cache]
    simp [List.find?_cons]

theorem C6_witness :
    ((SimpleCache.get ⟨[⟨"k", 7, 0⟩, ⟨"m", 8, 0⟩], 300⟩ "k" 360).2.1 = false →
      ((SimpleCache.get ⟨[⟨"k", 7, 0⟩, ⟨"m", 8, 0⟩], 300⟩ "k" 360).2.2).cache.find?
        (fun e => e.key == "k") = none) ∧
    ((SimpleCache.get ⟨[⟨"k", 7, 0⟩, ⟨"m", 8, 0⟩], 300⟩ "k" 360).2.1 = true →
      (SimpleCache.get ⟨[⟨"k", 7, 0⟩, ⟨"m", 8, 0⟩], 300⟩ "k" 360).2.2 =
        ⟨[⟨"k", 7, 0⟩, ⟨"m", 8, 0⟩], 300⟩) ∧
    ((SimpleCache.get ⟨[⟨"k", 7, 0⟩, ⟨"m", 8, 0⟩], 300⟩ "k" 360).2.2).cache.find?
        (fun e => e.key == "m") =
      (⟨[⟨"k", 7, 0⟩, ⟨"m", 8, 0⟩], 300⟩ : SimpleCache).cache.find?
        (fun e => e.key == "m") ∧
    (SimpleCache.set (⟨[⟨"k", 7, 0⟩, ⟨"m", 8, 0⟩], 300⟩ : SimpleCache) "k" 9 360).cache.find?
        (fun e => e.key == "m") =
      (⟨[⟨"k", 7, 0⟩, ⟨"m", 8, 0⟩], 300⟩ : SimpleCache).cache.find?
        (fun e => e.key == "m") ∧
    (SimpleCache.set (⟨[⟨"k", 7, 0⟩, ⟨"m", 8, 0⟩], 300⟩ : SimpleCache) "k" 9 360).cache.find?
        (fun e => e.key == "k") = some (⟨"k", 9, 360⟩ : CacheEntry) ∧
    (SimpleCache.clear ⟨[⟨"k", 7, 0⟩, ⟨"m", 8, 0⟩], 300⟩).cache = [] :=
  C6_lazy_expiry_frame ⟨[⟨"k", 7, 0⟩, ⟨"m", 8, 0⟩], 300⟩ "k" "m" 360 9 (by decide)

/-- C5: successive executions of the single queue worker start at least
the configured interval apart: iteration `n` runs for `dur n ≥ 0`, then
sleeps `max(0, interval - dur n)`, and any extra idle time in the
empty-queue polling branch is nonnegative, so consecutive start times
differ by at least the interval. -/
theorem C5_min_spacing (interval : ℚ) (dur idle : Nat → ℚ)
    (hdur : ∀ n, 0 ≤ dur n) (hidle : ∀ n, 0 ≤ idle n) (n : Nat) :
    execStart interval dur idle n + interval ≤ execStart interval dur idle (n + 1) := by
  have hkey : interval ≤ dur n + worker_sleep interval (dur n) := by
    unfold worker_sleep
    rcases le_total (interval - dur n) 0 with h | h
    · rw [max_eq_left h]
      have := hdur n
      linarith
    · rw [max_eq_right h]
      linarith
  have hi := hidle (n + 1)
  show execStart interval dur idle n + interval ≤
    execStart interval dur idle n + dur n + worker_sleep interval (dur n) + idle (n + 1)
  linarith

theorem C5_witness :
    execStart (5/2) (fun _ => 1) (fun _ => 0) 0 + 5/2 ≤
      execStart (5/2) (fun _ => 1) (fun _ => 0) 1 :=
  C5_min_spacing (5/2) (fun _ => 1) (fun _ => 0)
    (fun _ => by norm_num) (fun _ => le_refl 0) 0

/-- A queue state with no pending activity but one already processed
request: started fresh, one request enqueued and processed. -/
def qC9 : RateLimitedQueue :=
  ((RateLimitedQueue.init 2).start.enqueue).process_one true "t1"

/-- C9 counterexample: in the state `qC9` (no pending or in-flight
activity, backlog empty), queue clear-and-restart leaves
`total_requests` at 1, not at the fresh-initial value 0 reported by a
newly constructed instance: `stop()`/`start()` never reset the stats
dict. -/
theorem C9_counterexample :
    qC9.backlog = 0 ∧
    (clear_queue qC9).get_stats.1.total_requests = 1 ∧
    ((RateLimitedQueue.init 2).get_stats).1.total_requests = 0 ∧
    (clear_queue qC9).get_stats.1.total_requests ≠
      ((RateLimitedQueue.init 2).get_stats).1.total_requests := by decide

/-- C9 amended: with no pending activity, cache-clear leaves the cache
stats at their fresh-initial values and is idempotent; pool-reset builds
a pool whose per-key counters are all at their fresh-initial values (so
it is idempotent as well, ignoring its input); queue clear-and-restart
is idempotent, but it PRESERVES the queue stats counters instead of
resetting them - only the worker flag is touched. -/
theorem C9_reset_operations (c : SimpleCache) (q : RateLimitedQueue)
    (api_keys : List String) (strat : String) (now : Int)
    (hq : q.backlog = 0) :
    c.clear.get_stats now = SimpleCache.get_stats ⟨[], c.default_ttl⟩ now ∧
    c.clear.clear = c.clear ∧
    (∀ i, i ∈ (initApiPool api_keys strat now).keys_stats →
      i.request_count = 0 ∧ i.consecutive_failures = 0 ∧
      i.rate_limited_until = none ∧ i.is_active = true) ∧
    clear_queue (clear_queue q) = clear_queue q ∧
    (clear_queue q).stats = q.stats ∧
    (clear_queue q).get_stats.1.queue_size = 0 := by
  refine ⟨rfl, rfl, ?_, ?_, ?_, ?_⟩
  · intro i hi
    simp only [initApiPool, List.mem_map] at hi
    obtain ⟨a, _, ha⟩ := hi
    subst ha
    exact ⟨rfl, rfl, rfl, rfl⟩
  · simp [clear_queue, RateLimitedQueue.stop, RateLimitedQueue.start]
  · simp [clear_queue, RateLimitedQueue.stop, RateLimitedQueue.start]
  · simp [clear_queue, RateLimitedQueue.stop, RateLimitedQueue.start,
      RateLimitedQueue.get_stats, hq]

theorem C9_witness :
    (SimpleCache.clear ⟨[⟨"k", 7, 0⟩], 300⟩).get_stats 10 =
      SimpleCache.get_stats ⟨[], 300⟩ 10 ∧
    (SimpleCache.clear ⟨[⟨"k", 7, 0⟩], 300⟩).clear =
      SimpleCache.clear ⟨[⟨"k", 7, 0⟩], 300⟩ ∧
    (∀ i, i ∈ (initApiPool ["A", "B"] "round_robin" 0).keys_stats →
      i.request_count = 0 ∧ i.consecutive_failures = 0 ∧
      i.rate_limited_until = none ∧ i.is_active = true) ∧
    clear_queue (clear_queue qC9) = clear_queue qC9 ∧
    (clear_queue qC9).stats = qC9.stats ∧
    (clear_queue qC9).get_stats.1.queue_size = 0 :=
  C9_reset_operations ⟨[⟨"k", 7, 0⟩], 300⟩ qC9 ["A", "B"] "round_robin" 0
    (by decide)

theorem markFirst_no_match (f : ApiKeyStats → ApiKeyStats) (k : String)
    (l : List ApiKeyStats) (h : ∀ e ∈ l, e.key ≠ k) : markFirst f k l = l := by
  induction l with
  | nil => rfl
  | cons a t ih =>
    have ha : a.key ≠ k := h a (List.mem_cons_self a t)
    simp only [markFirst, beq_iff_eq, ha, if_false]
    rw [ih (fun e he => h e (List.mem_cons_of_mem a he))]

/-- C10: reporting a key string that matches no credential in the pool
(mark rate-limited, mark success, or deactivate) returns normally and
leaves the pool state completely unchanged. -/
theorem C10_unknown_key_noop (p : ApiKeyPool) (k : String)
    (retry_after : Option Nat) (now : Int)
    (h : ∀ e ∈ p.keys_stats, e.key ≠ k) :
    markRateLimited p k retry_after now = p ∧
    markSuccess p k = p ∧ deactivateKey p k = p := by
  refine ⟨?_, ?_, ?_⟩ <;>
    simp [markRateLimited, markSuccess, deactivateKey, markFirst_no_match _ _ _ h]

theorem C10_witness :
    markRateLimited ⟨[⟨"A", 0, 0, none, 0, true⟩], "round_robin", 0⟩ "Z" (some 5) 0 =
      ⟨[⟨"A", 0, 0, none, 0, true⟩], "round_robin", 0⟩ ∧
    markSuccess ⟨[⟨"A", 0, 0, none, 0, true⟩], "round_robin", 0⟩ "Z" =
      ⟨[⟨"A", 0, 0, none, 0, true⟩], "round_robin", 0⟩ ∧
    deactivateKey ⟨[⟨"A", 0, 0, none, 0, true⟩], "round_robin", 0⟩ "Z" =
      ⟨[⟨"A", 0, 0, none, 0, true⟩], "round_robin", 0⟩ :=
  C10_unknown_key_noop ⟨[⟨"A", 0, 0, none, 0, true⟩], "round_robin", 0⟩ "Z"
    (some 5) 0 (by decide)

/-- C7 counterexample: a pool whose single active credential has 300
seconds of cooldown remaining.  The claim says the selection operation
blocks for that duration capped at the cooldown constant, i.e. 90
seconds.  The code blocks for 0 seconds: `_wait_for_cooldown` sleeps
only when the shortest wait is strictly below the constant, and
otherwise skips the sleep entirely (the selection call returns at the
original clock value, not 90 seconds later). -/
theorem C7_counterexample :
    waitForCooldown 0 [⟨"A", 0, 0, some 300, 0, true⟩] = 0 ∧
    (getNextKey ⟨[⟨"A", 0, 0, some 300, 0, true⟩], "round_robin", 0⟩ 0 0).2.2 = 0 ∧
    min (300 : Int) cooldown_seconds = 90 ∧ (0 : Int) ≠ 90 := by decide

theorem dispatchStrategy_shape (p2 : ApiKeyPool) (avail : List ApiKeyStats)
    (t2 : Int) (pick : Nat) :
    (dispatchStrategy p2 avail t2 pick).2.2 = t2 ∧
    ∃ o, (dispatchStrategy p2 avail t2 pick).1 = Except.ok o := by
  unfold dispatchStrategy
  split
  · exact ⟨rfl, _, rfl⟩
  · split
    · exact ⟨rfl, _, rfl⟩
    · split
      · exact ⟨rfl, _, rfl⟩
      · exact ⟨rfl, _, rfl⟩

theorem waitForCooldown_bounds (now : Int) (keys : List ApiKeyStats) :
    0 ≤ waitForCooldown now keys ∧ waitForCooldown now keys < cooldown_seconds := by
  simp only [waitForCooldown]
  split
  next d _ =>
    split
    next h =>
      simp only [Bool.and_eq_true, decide_eq_true_eq] at h
      exact ⟨le_of_lt h.1, h.2⟩
    next _ => exact ⟨le_refl 0, by norm_num [cooldown_seconds]⟩
  next => exact ⟨le_refl 0, by norm_num [cooldown_seconds]⟩

/-- C7 amended: when no credential is currently usable, the selection
operation computes the shortest remaining cooldown among ALL
rate-limited credentials (inactive ones included), blocks for that
duration only when it is positive and strictly below the cooldown
constant - otherwise it does not block at all (the wait is always
nonnegative and strictly below the constant) - then re-filters at the
new clock and fails with the pool-exhausted error exactly when the
re-filtered set is still empty. -/
theorem C7_exhaustion_path (p : ApiKeyPool) (now : Int) (pick : Nat)
    (h : (getAvailableKeys now p).2.isEmpty = true) :
    0 ≤ waitForCooldown now (getAvailableKeys now p).1.keys_stats ∧
    waitForCooldown now (getAvailableKeys now p).1.keys_stats < cooldown_seconds ∧
    (getNextKey p now pick).2.2 =
      now + waitForCooldown now (getAvailableKeys now p).1.keys_stats ∧
    ((getNextKey p now pick).1 = Except.error "All API keys are exhausted or inactive" ↔
      (getAvailableKeys (now + waitForCooldown now (getAvailableKeys now p).1.keys_stats)
        (getAvailableKeys now p).1).2.isEmpty = true) := by
  obtain ⟨hb1, hb2⟩ := waitForCooldown_bounds now (getAvailableKeys now p).1.keys_stats
  refine ⟨hb1, hb2, ?_, ?_⟩
  · simp only [getNextKey, h, if_true]
    by_cases h2 : (getAvailableKeys
        (now + waitForCooldown now (getAvailableKeys now p).1.keys_stats)
        (getAvailableKeys now p).1).2.isEmpty
    · simp [h2]
    · simp only [h2, Bool.false_eq_true, if_false]
      exact (dispatchStrategy_shape _ _ _ _).1
  · simp only [getNextKey, h, if_true]
    by_cases h2 : (getAvailableKeys
        (now + waitForCooldown now (getAvailableKeys now p).1.keys_stats)
        (getAvailableKeys now p).1).2.isEmpty
    · simp [h2]
    · simp only [h2, Bool.false_eq_true, if_false, iff_false]
      obtain ⟨_, o, ho⟩ := dispatchStrategy_shape
        (getAvailableKeys
          (now + waitForCooldown now (getAvailableKeys now p).1.keys_stats)
          (getAvailableKeys now p).1).1
        (getAvailableKeys
          (now + waitForCooldown now (getAvailableKeys now p).1.keys_stats)
          (getAvailableKeys now p).1).2
        (now + waitForCooldown now (getAvailableKeys now p).1.keys_stats) pick
      rw [ho]
      simp

theorem C7_witness :
    0 ≤ waitForCooldown 0
        (getAvailableKeys 0 ⟨[⟨"A", 0, 0, some 50, 0, true⟩], "round_robin", 0⟩).1.keys_stats ∧
    waitForCooldown 0
        (getAvailableKeys 0 ⟨[⟨"A", 0, 0, some 50, 0, true⟩], "round_robin", 0⟩).1.keys_stats
      < cooldown_seconds ∧
    (getNextKey ⟨[⟨"A", 0, 0, some 50, 0, true⟩], "round_robin", 0⟩ 0 0).2.2 =
      0 + waitForCooldown 0
        (getAvailableKeys 0 ⟨[⟨"A", 0, 0, some 50, 0, true⟩], "round_robin", 0⟩).1.keys_stats ∧
    ((getNextKey ⟨[⟨"A", 0, 0, some 50, 0, true⟩], "round_robin", 0⟩ 0 0).1 =
        Except.error "All API keys are exhausted or inactive" ↔
      (getAvailableKeys
        (0 + waitForCooldown 0
          (getAvailableKeys 0 ⟨[⟨"A", 0, 0, some 50, 0, true⟩], "round_robin", 0⟩).1.keys_stats)
        (getAvailableKeys 0 ⟨[⟨"A", 0, 0, some 50, 0, true⟩], "round_robin", 0⟩).1).2.isEmpty
        = true) :=
  C7_exhaustion_path ⟨[⟨"A", 0, 0, some 50, 0, true⟩], "round_robin", 0⟩ 0 0 (by decide)

/-- C4 counterexample: the wrapped fetch fails with HTTP 500 - neither a
rate-limit nor an authorization signal - on the first attempt, with a
retry ceiling of 3 and two healthy credentials.  The claim says the
wrapper retries with a fresh credential; the code instead hits the
`break` for other HTTP errors, makes exactly one selection, and raises. -/
theorem C4_counterexample :
    (apiRequestWithRotation (fun _ _ => FetchResult.httpError 500 none) (fun _ => 0)
      ⟨[⟨"KEYA", 0, 0, none, 0, true⟩, ⟨"KEYB", 0, 0, none, 0, true⟩],
        "round_robin", 0⟩ 0 3).1 = Except.error "HTTP 500" ∧
    (apiRequestWithRotation (fun _ _ => FetchResult.httpError 500 none) (fun _ => 0)
      ⟨[⟨"KEYA", 0, 0, none, 0, true⟩, ⟨"KEYB", 0, 0, none, 0, true⟩],
        "round_robin", 0⟩ 0 3).2.selections = 1 ∧ (1 : Nat) < 3 :=
  ⟨rfl, rfl, by norm_num⟩

/-- C4 amended: after a successful selection, a failure of the wrapped
fetch that is NOT an HTTP error is retried: the loop moves to the next
attempt with the pool exactly as selection left it (the credential is
neither marked rate-limited nor deactivated), after the backoff sleep;
an HTTP error that is neither 429 nor 403, however, is NOT retried: the
loop breaks immediately and raises it, again leaving the credential
unpenalized. -/
theorem C4_other_failures (behavior : Nat → String → FetchResult) (picks : Nat → Nat)
    (max_retries remaining attempt : Nat) (st : RotState) (lastE : Option String)
    (k : String) (p1 : ApiKeyPool) (t1 : Int)
    (hsel : getNextKey st.pool st.now (picks attempt) = (Except.ok (some k), p1, t1))
    (hk : (k == "") = false) :
    (∀ msg, behavior attempt k = FetchResult.otherError msg →
      rotationGo behavior picks max_retries (remaining + 1) attempt st lastE =
        rotationGo behavior picks max_retries remaining (attempt + 1)
          ⟨p1, t1 + (if attempt < max_retries - 1 then 2 ^ attempt else 0),
            st.selections + 1⟩ (some msg)) ∧
    (∀ status ra, behavior attempt k = FetchResult.httpError status ra →
      status ≠ 429 → status ≠ 403 →
      rotationGo behavior picks max_retries (remaining + 1) attempt st lastE =
        (Except.error ("HTTP " ++ toString status), ⟨p1, t1, st.selections + 1⟩)) := by
  constructor
  · intro msg hb
    simp only [rotationGo, hsel, hk, hb, Bool.false_eq_true, if_false]
  · intro status ra hb h429 h403
    simp only [rotationGo, hsel, hk, hb, Bool.false_eq_true, if_false, h429, h403,
      ite_false, if_neg h429, if_neg h403]

theorem C4_witness :
    rotationGo (fun _ _ => FetchResult.otherError "net") (fun _ => 0) 3 3 0
        ⟨⟨[⟨"KEYA", 0, 0, none, 0, true⟩, ⟨"KEYB", 0, 0, none, 0, true⟩],
          "round_robin", 0⟩, 0, 0⟩ none =
      rotationGo (fun _ _ => FetchResult.otherError "net") (fun _ => 0) 3 2 1
        ⟨⟨[⟨"KEYA", 0, 1, none, 0, true⟩, ⟨"KEYB", 0, 0, none, 0, true⟩],
          "round_robin", 1⟩, 1, 1⟩ (some "net") :=
  (C4_other_failures (fun _ _ => FetchResult.otherError "net") (fun _ => 0) 3 2 0
    ⟨⟨[⟨"KEYA", 0, 0, none, 0, true⟩, ⟨"KEYB", 0, 0, none, 0, true⟩],
      "round_robin", 0⟩, 0, 0⟩ none "KEYA"
    ⟨[⟨"KEYA", 0, 1, none, 0, true⟩, ⟨"KEYB", 0, 0, none, 0, true⟩],
      "round_robin", 1⟩ 0 rfl rfl).1 "net" rfl

theorem refreshKey_key (t : Int) (k : ApiKeyStats) : (refreshKey t k).key = k.key := by
  unfold refreshKey
  split
  · rfl
  · split
    · split <;> rfl
    · rfl

theorem refreshKey_avail_id (t : Int) (k : ApiKeyStats) (h : isAvailable k = true) :
    refreshKey t k = k := by
  unfold isAvailable at h
  simp only [Bool.and_eq_true, Option.isNone_iff_eq_none] at h
  simp [refreshKey, h.1, h.2]

theorem refreshKey_not_elapsed (t : Int) (k : ApiKeyStats) (d : Int)
    (hd : k.rate_limited_until = some d) (ht : ¬ t ≥ d) : refreshKey t k = k := by
  unfold refreshKey
  rw [hd]
  by_cases ha : k.is_active <;> simp [ha, ht]

theorem map_key_refresh (t : Int) (l : List ApiKeyStats) :
    (l.map (refreshKey t)).map (fun z => z.key) = l.map (fun z => z.key) := by
  rw [List.map_map]
  exact List.map_congr_left (fun a _ => refreshKey_key t a)

theorem selectAt_fst (now : Int) (keys : List ApiKeyStats) (ks : ApiKeyStats) :
    (selectAt now keys ks).1 = ks.key := by
  unfold selectAt
  split <;> rfl

theorem roundRobinLoop_mem (now : Int) (keys avail : List ApiKeyStats) :
    ∀ (fuel idx : Nat) (s : String) (ks2 : List ApiKeyStats) (i2 : Nat),
      roundRobinLoop now keys avail idx fuel = some (s, ks2, i2) →
      ∃ ck ∈ avail, s = ck.key := by
  intro fuel
  induction fuel with
  | zero => intro idx s ks2 i2 h; simp [roundRobinLoop] at h
  | succ n ih =>
    intro idx s ks2 i2 h
    simp only [roundRobinLoop] at h
    split at h
    · exact absurd h (by simp)
    next ck _ =>
      split at h
      next hmem =>
        simp only [Option.some.injEq, Prod.mk.injEq] at h
        exact ⟨ck, hmem, h.1.symm⟩
      next => exact ih (idx + 1) s ks2 i2 h

theorem roundRobinSelection_mem (now : Int) (keys avail : List ApiKeyStats)
    (idx : Nat) (s : String)
    (h : (roundRobinSelection now keys avail idx).1 = some s) :
    ∃ ck ∈ avail, s = ck.key := by
  unfold roundRobinSelection at h
  split at h
  · simp at h
  · split at h
    next s2 keys2 idx2 heq =>
      simp only [Option.some.injEq] at h
      exact h ▸ roundRobinLoop_mem now keys avail keys.length idx s2 keys2 idx2 heq
    next =>
      split at h
      next ks hks =>
        simp only [Option.some.injEq] at h
        refine ⟨ks, List.mem_of_mem_head? (by simp [hks]), ?_⟩
        rw [← h, selectAt_fst]
      next => simp at h

theorem randomSelection_mem (now : Int) (keys avail : List ApiKeyStats) (pick : Nat)
    (s : String) (h : (randomSelection now keys avail pick).1 = some s) :
    ∃ ck ∈ avail, s = ck.key := by
  unfold randomSelection at h
  split at h
  next ks hks =>
    simp only [Option.some.injEq] at h
    exact ⟨ks, List.get?_mem hks, by rw [← h, selectAt_fst]⟩
  next => simp at h

theorem leastUsedMin_mem (l : List ApiKeyStats) :
    ∀ m : ApiKeyStats, leastUsedMin l = some m → m ∈ l := by
  induction l with
  | nil => intro m h; simp [leastUsedMin] at h
  | cons k t ih =>
    intro m h
    simp only [leastUsedMin] at h
    split at h
    next m2 heq =>
      simp only [Option.some.injEq] at h
      subst h
      split
      · exact List.mem_cons_self k t
      · exact List.mem_cons_of_mem k (ih m2 heq)
    next =>
      simp only [Option.some.injEq] at h
      subst h
      exact List.mem_cons_self k t

theorem leastUsedSelection_mem (now : Int) (keys avail : List ApiKeyStats)
    (s : String) (h : (leastUsedSelection now keys avail).1 = some s) :
    ∃ ck ∈ avail, s = ck.key := by
  unfold leastUsedSelection at h
  split at h
  next ks hks =>
    simp only [Option.some.injEq] at h
    exact ⟨ks, leastUsedMin_mem avail ks hks, by rw [← h, selectAt_fst]⟩
  next => simp at h

theorem dispatchStrategy_mem (p2 : ApiKeyPool) (avail : List ApiKeyStats)
    (t2 : Int) (pick : Nat) (s : String)
    (h : (dispatchStrategy p2 avail t2 pick).1 = Except.ok (some s)) :
    ∃ ck ∈ avail, s = ck.key := by
  unfold dispatchStrategy at h
  split at h
  · simp only [Except.ok.injEq] at h
    exact roundRobinSelection_mem t2 p2.keys_stats avail p2.current_index s h
  · split at h
    · simp only [Except.ok.injEq] at h
      exact randomSelection_mem t2 p2.keys_stats avail pick s h
    · split at h
      · simp only [Except.ok.injEq] at h
        exact leastUsedSelection_mem t2 p2.keys_stats avail s h
      · simp only [Except.ok.injEq] at h
        exact roundRobinSelection_mem t2 p2.keys_stats avail p2.current_index s h

theorem getNextKey_sound (p : ApiKeyPool) (now : Int) (pick : Nat)
    (s : String) (p2 : ApiKeyPool) (t2 : Int)
    (h : getNextKey p now pick = (Except.ok (some s), p2, t2)) :
    now ≤ t2 ∧
    ∃ Y, (Y = p.keys_stats ∨ Y = p.keys_stats.map (refreshKey now)) ∧
      ∃ ck ∈ (Y.map (refreshKey t2)).filter isAvailable, s = ck.key := by
  unfold getNextKey at h
  by_cases he : (getAvailableKeys now p).2.isEmpty
  · simp only [he, if_true] at h
    by_cases he2 : (getAvailableKeys
        (now + waitForCooldown now (getAvailableKeys now p).1.keys_stats)
        (getAvailableKeys now p).1).2.isEmpty
    · simp [he2] at h
    · simp only [he2, Bool.false_eq_true, if_false] at h
      have ht2 : t2 = now + waitForCooldown now (getAvailableKeys now p).1.keys_stats := by
        have := (dispatchStrategy_shape
          (getAvailableKeys
            (now + waitForCooldown now (getAvailableKeys now p).1.keys_stats)
            (getAvailableKeys now p).1).1
          (getAvailableKeys
            (now + waitForCooldown now (getAvailableKeys now p).1.keys_stats)
            (getAvailableKeys now p).1).2
          (now + waitForCooldown now (getAvailableKeys now p).1.keys_stats) pick).1
        rw [h] at this
        exact this
      have h1 : (dispatchStrategy
          (getAvailableKeys
            (now + waitForCooldown now (getAvailableKeys now p).1.keys_stats)
            (getAvailableKeys now p).1).1
          (getAvailableKeys
            (now + waitForCooldown now (getAvailableKeys now p).1.keys_stats)
            (getAvailableKeys now p).1).2
          (now + waitForCooldown now (getAvailableKeys now p).1.keys_stats) pick).1 =
          Except.ok (some s) := by rw [h]
      obtain ⟨ck, hck, hcks⟩ := dispatchStrategy_mem _ _ _ _ _ h1
      refine ⟨?_, p.keys_stats.map (refreshKey now), Or.inr rfl, ck, ?_, hcks⟩
      · rw [ht2]
        have := (waitForCooldown_bounds now (getAvailableKeys now p).1.keys_stats).1
        linarith
      · rw [ht2]
        exact hck
  · simp only [he, Bool.false_eq_true, if_false] at h
    have ht2 : t2 = now := by
      have := (dispatchStrategy_shape (getAvailableKeys now p).1
        (getAvailableKeys now p).2 now pick).1
      rw [h] at this
      exact this
    have h1 : (dispatchStrategy (getAvailableKeys now p).1
        (getAvailableKeys now p).2 now pick).1 = Except.ok (some s) := by rw [h]
    obtain ⟨ck, hck, hcks⟩ := dispatchStrategy_mem _ _ _ _ _ h1
    refine ⟨le_of_eq ht2.symm, p.keys_stats, Or.inl rfl, ck, ?_, hcks⟩
    rw [ht2]
    exact hck

theorem key_nodup_eq {l : List ApiKeyStats}
    (hnd : (l.map (fun z => z.key)).Nodup) {a b : ApiKeyStats}
    (ha : a ∈ l) (hb : b ∈ l) (hk : a.key = b.key) : a = b := by
  induction l with
  | nil => cases ha
  | cons x t ih =>
    simp only [List.map_cons, List.nodup_cons] at hnd
    rcases List.mem_cons.mp ha with ha1 | ha2
    · rcases List.mem_cons.mp hb with hb1 | hb2
      · rw [ha1, hb1]
      · exfalso
        apply hnd.1
        rw [ha1] at hk
        rw [hk]
        exact List.mem_map_of_mem (fun z => z.key) hb2
    · rcases List.mem_cons.mp hb with hb1 | hb2
      · exfalso
        apply hnd.1
        rw [hb1] at hk
        rw [← hk]
        exact List.mem_map_of_mem (fun z => z.key) ha2
      · exact ih hnd.2 ha2 hb2

theorem selected_cooldown_elapsed
    {Y : List ApiKeyStats} {t : Int} {x : ApiKeyStats} {d : Int}
    (hx : x ∈ Y) (hd : x.rate_limited_until = some d)
    (hnd : (Y.map (fun z => z.key)).Nodup)
    {ck : ApiKeyStats} (hck : ck ∈ (Y.map (refreshKey t)).filter isAvailable)
    (hkey : ck.key = x.key) : d ≤ t := by
  obtain ⟨hmem, hav⟩ := List.mem_filter.mp hck
  obtain ⟨z, hz, hzck⟩ := List.mem_map.mp hmem
  have hzkey : z.key = x.key := by
    rw [← hkey, ← hzck, refreshKey_key]
  have hzx : z = x := key_nodup_eq hnd hz hx hzkey
  subst hzx
  by_contra hlt
  have hid : refreshKey t z = z := refreshKey_not_elapsed t z d hd hlt
  rw [hid] at hzck
  subst hzck
  unfold isAvailable at hav
  rw [hd] at hav
  simp at hav

/-- The core cooldown-safety fact shared by several claims: whenever a
pool entry carries a rate-limit deadline `d`, any `get_next_key` call
that returns that entry's key string does so only at a clock value `t2`
with `d ≤ t2` (the function may have slept to get there, but it never
hands out the credential while the deadline is pending). -/
theorem selection_respects_deadline (p : ApiKeyPool) (now : Int) (pick : Nat)
    (x : ApiKeyStats) (d : Int) (hx : x ∈ p.keys_stats)
    (hd : x.rate_limited_until = some d)
    (hnd : (p.keys_stats.map (fun z => z.key)).Nodup)
    (s : String) (p2 : ApiKeyPool) (t2 : Int)
    (h : getNextKey p now pick = (Except.ok (some s), p2, t2))
    (hs : s = x.key) : d ≤ t2 := by
  obtain ⟨hle, Y, hY, ck, hck, hcks⟩ := getNextKey_sound p now pick s p2 t2 h
  have hkey : ck.key = x.key := by rw [← hcks, hs]
  rcases hY with hY | hY
  · subst hY
    exact selected_cooldown_elapsed hx hd hnd hck hkey
  · subst hY
    by_cases hcl : now ≥ d
    · exact le_trans hcl hle
    · have hmem : refreshKey now x ∈ p.keys_stats.map (refreshKey now) :=
        List.mem_map_of_mem _ hx
      have hid : refreshKey now x = x := refreshKey_not_elapsed now x d hd hcl
      rw [hid] at hmem
      have hnd2 : ((p.keys_stats.map (refreshKey now)).map (fun z => z.key)).Nodup := by
        rw [map_key_refresh]
        exact hnd
      exact selected_cooldown_elapsed hmem hd hnd2 hck hkey

/-- C2: for every credential marked rate-limited with deadline `d` (and
distinct key strings in the pool), a selection call returning that
credential's key can only complete at a clock value at or past `d`: the
rate-limited credential is never handed out while its cooldown deadline
is pending - any earlier call returns a different credential or fails. -/
theorem C2_cooldown_respected (p : ApiKeyPool) (now : Int) (pick : Nat)
    (x : ApiKeyStats) (d : Int) (hx : x ∈ p.keys_stats)
    (hd : x.rate_limited_until = some d)
    (hnd : (p.keys_stats.map (fun z => z.key)).Nodup)
    (s : String) (p2 : ApiKeyPool) (t2 : Int)
    (h : getNextKey p now pick = (Except.ok (some s), p2, t2))
    (hs : s = x.key) : d ≤ t2 :=
  selection_respects_deadline p now pick x d hx hd hnd s p2 t2 h hs

theorem C2_witness : (50 : Int) ≤ 50 :=
  C2_cooldown_respected ⟨[⟨"A", 0, 0, some 50, 0, true⟩], "round_robin", 0⟩ 0 0
    ⟨"A", 0, 0, some 50, 0, true⟩ 50 (by decide) rfl (by decide)
    "A" ⟨[⟨"A", 50, 1, none, 0, true⟩], "round_robin", 1⟩ 50 rfl rfl

theorem set_get_self {α : Type} (l : List α) : ∀ (j : Nat) (v : α),
    l.get? j = some v → l.set j v = l := by
  induction l with
  | nil => intro j v h; simp at h
  | cons a t ih =>
    intro j v h
    cases j with
    | zero =>
      simp only [List.get?] at h
      injection h with h
      rw [← h]
      rfl
    | succ n =>
      simp only [List.get?] at h
      simp only [List.set]
      rw [ih n v h]

/-- One `get_next_key` call on a fully healthy round-robin pool: the key
at position `current_index % len` is selected, its usage counters are
bumped in place, the cursor advances by one, and no time passes. -/
theorem getNextKey_all_avail (p : ApiKeyPool) (now : Int) (pick : Nat)
    (hall : ∀ x ∈ p.keys_stats, isAvailable x = true)
    (hstrat : p.strategy = "round_robin")
    (hlen : 0 < p.keys_stats.length) :
    ∃ ck, p.keys_stats.get? (p.current_index % p.keys_stats.length) = some ck ∧
      getNextKey p now pick =
        (Except.ok (some ck.key),
         ⟨p.keys_stats.set (p.current_index % p.keys_stats.length) (markUsed now ck),
          p.strategy, p.current_index + 1⟩, now) := by
  have hmod : p.current_index % p.keys_stats.length < p.keys_stats.length :=
    Nat.mod_lt _ hlen
  obtain ⟨ck, hck⟩ : ∃ ck,
      p.keys_stats.get? (p.current_index % p.keys_stats.length) = some ck :=
    ⟨_, List.get?_eq_get hmod⟩
  refine ⟨ck, hck, ?_⟩
  have hmap : p.keys_stats.map (refreshKey now) = p.keys_stats := by
    have h1 : p.keys_stats.map (refreshKey now) = p.keys_stats.map id :=
      List.map_congr_left (fun a ha => refreshKey_avail_id now a (hall a ha))
    rw [h1, List.map_id]
  have hfil : p.keys_stats.filter isAvailable = p.keys_stats :=
    List.filter_eq_self.mpr hall
  have hne : p.keys_stats.isEmpty = false := by
    cases hkl : p.keys_stats with
    | nil => rw [hkl] at hlen; simp at hlen
    | cons a t => rfl
  have hga : getAvailableKeys now p = (p, p.keys_stats) := by
    simp only [getAvailableKeys, hmap, hfil]
  have hloop : roundRobinLoop now p.keys_stats p.keys_stats p.current_index
      p.keys_stats.length =
      some (ck.key,
        p.keys_stats.set (p.current_index % p.keys_stats.length) (markUsed now ck),
        p.current_index + 1) := by
    cases hkl : p.keys_stats.length with
    | zero => rw [hkl] at hlen; simp at hlen
    | succ m =>
      rw [← hkl]
      have hfuel : p.keys_stats.length = m + 1 := hkl
      rw [hfuel]
      simp only [roundRobinLoop]
      rw [← hfuel, hck]
      simp [List.get?_mem hck]
  have hsel : roundRobinSelection now p.keys_stats p.keys_stats p.current_index =
      (some ck.key,
        p.keys_stats.set (p.current_index % p.keys_stats.length) (markUsed now ck),
        p.current_index + 1) := by
    unfold roundRobinSelection
    rw [hne, hloop]
    rfl
  have hdisp : dispatchStrategy p p.keys_stats now pick =
      (Except.ok (some ck.key),
       ⟨p.keys_stats.set (p.current_index % p.keys_stats.length) (markUsed now ck),
        p.strategy, p.current_index + 1⟩, now) := by
    unfold dispatchStrategy
    rw [hstrat]
    simp only [beq_self_eq_true, if_true, hsel]
  simp only [getNextKey, hga, hne, Bool.false_eq_true, if_false, hdisp]

/-- The result of the `(n+1)`-st sequential `get_next_key` call on a
pool (each call acting on the pool state the previous call left behind;
the clock is irrelevant for a pool with no rate limits). -/
def nthSelection (p : ApiKeyPool) (now : Int) : Nat → Except String (Option String) × ApiKeyPool
  | 0 => ((getNextKey p now 0).1, (getNextKey p now 0).2.1)
  | n + 1 => nthSelection (getNextKey p now 0).2.1 now n

theorem nthSelection_round_robin (now : Int) :
    ∀ (n : Nat) (q : ApiKeyPool),
      (∀ x ∈ q.keys_stats, isAvailable x = true) →
      q.strategy = "round_robin" → 0 < q.keys_stats.length →
      (nthSelection q now n).1 =
        Except.ok ((q.keys_stats.map (fun z => z.key)).get?
          ((q.current_index + n) % q.keys_stats.length)) := by
  intro n
  induction n with
  | zero =>
    intro q hall hstrat hlen
    obtain ⟨ck, hck, heq⟩ := getNextKey_all_avail q now 0 hall hstrat hlen
    simp only [nthSelection, heq]
    rw [Nat.add_zero, List.get?_map, hck]
    rfl
  | succ n ih =>
    intro q hall hstrat hlen
    obtain ⟨ck, hck, heq⟩ := getNextKey_all_avail q now 0 hall hstrat hlen
    simp only [nthSelection, heq]
    have hckmem : ck ∈ q.keys_stats := List.get?_mem hck
    have hall2 : ∀ x ∈ q.keys_stats.set
        (q.current_index % q.keys_stats.length) (markUsed now ck),
        isAvailable x = true := by
      intro x hx
      rcases List.mem_or_eq_of_mem_set hx with hx1 | hx2
      · exact hall x hx1
      · rw [hx2]
        exact hall ck hckmem
    have hmapkey : (q.keys_stats.set
          (q.current_index % q.keys_stats.length) (markUsed now ck)).map
            (fun z => z.key) =
        q.keys_stats.map (fun z => z.key) := by
      rw [List.map_set]
      apply set_get_self
      rw [List.get?_map, hck]
      rfl
    have hlen2 : (q.keys_stats.set
        (q.current_index % q.keys_stats.length) (markUsed now ck)).length =
        q.keys_stats.length :=
      List.length_set q.keys_stats _ _
    have hrec := ih ⟨q.keys_stats.set
        (q.current_index % q.keys_stats.length) (markUsed now ck),
      q.strategy, q.current_index + 1⟩ hall2 hstrat (by rw [hlen2]; exact hlen)
    rw [hrec]
    simp only [hmapkey, hlen2]
    have harith : q.current_index + 1 + n = q.current_index + (n + 1) := by omega
    rw [harith]

/-- C3: on a pool of `K` active credentials with the round-robin strategy,
none rate-limited or deactivated and the cursor at its initial position,
the `(n+1)`-st sequential selection returns the credential at index
`n mod K`: every window of `K` consecutive selections visits each
credential exactly once (distinct key strings assumed), in a fixed cyclic
order starting from the first credential. -/
theorem C3_round_robin_cycle (p : ApiKeyPool) (now : Int)
    (hall : ∀ x ∈ p.keys_stats, isAvailable x = true)
    (hstrat : p.strategy = "round_robin")
    (hlen : 0 < p.keys_stats.length)
    (hidx : p.current_index = 0)
    (hnd : (p.keys_stats.map (fun z => z.key)).Nodup) :
    (∀ n, (nthSelection p now n).1 =
      Except.ok ((p.keys_stats.map (fun z => z.key)).get? (n % p.keys_stats.length))) ∧
    (∀ m i j, i < p.keys_stats.length → j < p.keys_stats.length → i ≠ j →
      (nthSelection p now (m + i)).1 ≠ (nthSelection p now (m + j)).1) := by
  have hmain : ∀ n, (nthSelection p now n).1 =
      Except.ok ((p.keys_stats.map (fun z => z.key)).get? (n % p.keys_stats.length)) := by
    intro n
    have h := nthSelection_round_robin now n p hall hstrat hlen
    rwa [hidx, Nat.zero_add] at h
  refine ⟨hmain, ?_⟩
  intro m i j hi hj hij
  rw [hmain (m + i), hmain (m + j)]
  intro hcontra
  simp only [Except.ok.injEq] at hcontra
  have hlenmap : (p.keys_stats.map (fun z => z.key)).length = p.keys_stats.length :=
    List.length_map _ _
  have ha : (m + i) % p.keys_stats.length < p.keys_stats.length := Nat.mod_lt _ hlen
  have hb : (m + j) % p.keys_stats.length < p.keys_stats.length := Nat.mod_lt _ hlen
  have hne : (m + i) % p.keys_stats.length ≠ (m + j) % p.keys_stats.length := by
    intro he
    have hmod : i ≡ j [MOD p.keys_stats.length] :=
      Nat.ModEq.add_left_cancel (Nat.ModEq.refl m) he
    have : i % p.keys_stats.length = j % p.keys_stats.length := hmod
    rw [Nat.mod_eq_of_lt hi, Nat.mod_eq_of_lt hj] at this
    exact hij this
  rw [List.get?_eq_get (hlenmap ▸ ha), List.get?_eq_get (hlenmap ▸ hb)] at hcontra
  simp only [Option.some.injEq] at hcontra
  have hfin := (List.Nodup.get_inj_iff hnd).mp hcontra
  exact hne (congrArg Fin.val hfin)

theorem C3_witness :
    (nthSelection ⟨[⟨"A", 0, 0, none, 0, true⟩, ⟨"B", 0, 0, none, 0, true⟩],
        "round_robin", 0⟩ 0 0).1 = Except.ok (some "A") ∧
    (nthSelection ⟨[⟨"A", 0, 0, none, 0, true⟩, ⟨"B", 0, 0, none, 0, true⟩],
        "round_robin", 0⟩ 0 1).1 = Except.ok (some "B") ∧
    (nthSelection ⟨[⟨"A", 0, 0, none, 0, true⟩, ⟨"B", 0, 0, none, 0, true⟩],
        "round_robin", 0⟩ 0 2).1 = Except.ok (some "A") := by
  have h := C3_round_robin_cycle
    ⟨[⟨"A", 0, 0, none, 0, true⟩, ⟨"B", 0, 0, none, 0, true⟩], "round_robin", 0⟩ 0
    (by decide) rfl (by decide) rfl (by decide)
  exact ⟨(h.1 0).trans rfl, (h.1 1).trans rfl, (h.1 2).trans rfl⟩

theorem markFirst_map_key (f : ApiKeyStats → ApiKeyStats) (k : String)
    (hf : ∀ z, (f z).key = z.key) (l : List ApiKeyStats) :
    (markFirst f k l).map (fun z => z.key) = l.map (fun z => z.key) := by
  induction l with
  | nil => rfl
  | cons a t ih =>
    simp only [markFirst]
    split
    · simp [hf]
    · simp only [List.map_cons, ih]

theorem markFirst_first_match (f : ApiKeyStats → ApiKeyStats) (k : String)
    (l : List ApiKeyStats) (x : ApiKeyStats) (hx : x ∈ l) (hk : x.key = k) :
    ∃ x0, x0 ∈ l ∧ x0.key = k ∧ f x0 ∈ markFirst f k l := by
  induction l with
  | nil => cases hx
  | cons a t ih =>
    by_cases ha : a.key = k
    · refine ⟨a, List.mem_cons_self a t, ha, ?_⟩
      simp [markFirst, ha]
    · have hxt : x ∈ t := by
        rcases List.mem_cons.mp hx with h1 | h2
        · exact absurd (h1 ▸ hk) ha
        · exact h2
      obtain ⟨x0, hx0t, hx0k, hx0m⟩ := ih hxt
      refine ⟨x0, List.mem_cons_of_mem a hx0t, hx0k, ?_⟩
      simp only [markFirst, beq_iff_eq, ha, if_false]
      exact List.mem_cons_of_mem a hx0m

/-- C8: a fetch failing with a rate-limit signal carrying a 5-minute
retry-after hint (a `Retry-After` header of 300 seconds, which the retry
wrapper converts to `300 // 60 = 5` minutes before reporting) leaves the
credential used with a cooldown deadline 300 seconds in the future; any
selection returning that credential's key completes only at a clock at
or past that deadline; and throughout the window the pool stats report
the credential as rate-limited. -/
theorem C8_five_minute_rate_limit (p p5 : ApiKeyPool) (now : Int) (k : String)
    (x : ApiKeyStats) (hx : x ∈ p.keys_stats) (hk : x.key = k)
    (hnd : (p.keys_stats.map (fun z => z.key)).Nodup)
    (hp5 : p5 = markRateLimited p k ((some 300).map (fun s => s / 60)) now) :
    (∃ y ∈ p5.keys_stats, y.key = k ∧ y.rate_limited_until = some (now + 300)) ∧
    (∀ t pick s q t2, getNextKey p5 t pick = (Except.ok (some s), q, t2) →
      s = k → now + 300 ≤ t2) ∧
    (∀ t, t < now + 300 →
      ∃ info ∈ (getStats p5 t).1.keys,
        info.key_preview = k.take 8 ++ "..." ∧ info.rate_limited = true) := by
  subst hp5
  have hcool : cooldownFromHint ((some 300).map (fun s => s / 60)) = 300 := by decide
  obtain ⟨x0, hx0, hx0k, hx0m⟩ := markFirst_first_match
    (fun z => { z with
        rate_limited_until :=
          some (now + cooldownFromHint ((some 300).map (fun s => s / 60))),
        consecutive_failures := z.consecutive_failures + 1 })
    k p.keys_stats x hx hk
  have huntil : (ApiKeyStats.mk x0.key x0.last_used x0.request_count
      (some (now + cooldownFromHint ((some 300).map (fun s => s / 60))))
      (x0.consecutive_failures + 1) x0.is_active).rate_limited_until =
      some (now + 300) := by
    rw [hcool]
  have hnd5 : ((markRateLimited p k ((some 300).map (fun s => s / 60)) now).keys_stats.map
      (fun z => z.key)).Nodup := by
    show ((markFirst _ k p.keys_stats).map (fun z => z.key)).Nodup
    rw [markFirst_map_key (fun z => { z with
        rate_limited_until :=
          some (now + cooldownFromHint ((some 300).map (fun s => s / 60))),
        consecutive_failures := z.consecutive_failures + 1 }) k (fun z => rfl)
      p.keys_stats]
    exact hnd
  refine ⟨⟨_, hx0m, hx0k, huntil⟩, ?_, ?_⟩
  · intro t pick s q t2 h hs
    exact selection_respects_deadline
      (markRateLimited p k ((some 300).map (fun s => s / 60)) now) t pick
      _ (now + 300) hx0m huntil hnd5 s q t2 h (hs.trans hx0k.symm)
  · intro t ht
    refine ⟨_, List.mem_map_of_mem _ (List.mem_map_of_mem _ hx0m), ?_, ?_⟩
    · show (refreshKey t _).key.take 8 ++ "..." = k.take 8 ++ "..."
      rw [refreshKey_key]
      show x0.key.take 8 ++ "..." = k.take 8 ++ "..."
      rw [hx0k]
    · show (refreshKey t _).rate_limited_until.isSome = true
      rw [refreshKey_not_elapsed t _ (now + 300) huntil (by omega), huntil]
      rfl

theorem C8_witness :
    (∃ y ∈ (markRateLimited ⟨[⟨"ABCDEFGHI", 0, 0, none, 0, true⟩], "round_robin", 0⟩
        "ABCDEFGHI" ((some 300).map (fun s => s / 60)) 0).keys_stats,
      y.key = "ABCDEFGHI" ∧ y.rate_limited_until = some (0 + 300)) ∧
    (∀ t pick s q t2,
      getNextKey (markRateLimited ⟨[⟨"ABCDEFGHI", 0, 0, none, 0, true⟩], "round_robin", 0⟩
          "ABCDEFGHI" ((some 300).map (fun s => s / 60)) 0) t pick =
        (Except.ok (some s), q, t2) → s = "ABCDEFGHI" → 0 + 300 ≤ t2) ∧
    (∀ t, t < 0 + 300 →
      ∃ info ∈ (getStats (markRateLimited ⟨[⟨"ABCDEFGHI", 0, 0, none, 0, true⟩],
          "round_robin", 0⟩ "ABCDEFGHI" ((some 300).map (fun s => s / 60)) 0) t).1.keys,
        info.key_preview = "ABCDEFGHI".take 8 ++ "..." ∧ info.rate_limited = true) :=
  C8_five_minute_rate_limit
    ⟨[⟨"ABCDEFGHI", 0, 0, none, 0, true⟩], "round_robin", 0⟩
    (markRateLimited ⟨[⟨"ABCDEFGHI", 0, 0, none, 0, true⟩], "round_robin", 0⟩
      "ABCDEFGHI" ((some 300).map (fun s => s / 60)) 0)
    0 "ABCDEFGHI" ⟨"ABCDEFGHI", 0, 0, none, 0, true⟩
    (by decide) rfl (by decide) rfl
